import Mathlib

/-!
Verification of the masklint extraction/dispatch engine (src/main.rs).

The development shallowly embeds the program: Rust string operations are
modelled over `List Char` (so that every definition kernel-reduces), the
command tree is a nested inductive, external subprocesses are an oracle
`Env : List String → Spawn` mapping an argv to its outcome, and the
side-effecting walk `process_command` becomes explicit state passing over
a record of created files and printed report entries, returning the state
reached together with an optional error (the walk stops at the first
error, leaving already-performed effects in place, exactly as the Rust
`?` operator does).

Whitespace is modelled as ASCII space, tab, line feed and carriage
return, the characters relevant to linter output; `rustLines` mirrors
`str::lines` (split at line feeds, drop a carriage return preceding a
line feed, no trailing empty line), `rustReplace` mirrors
`str::replace` (leftmost non-overlapping occurrences), `rustTrim`
mirrors `str::trim`.
-/

/-- Whitespace test used by `rustTrim`, modelling `char::is_whitespace`
on the ASCII range. -/
def wsChar (c : Char) : Bool :=
  c = ' ' || c = '\t' || c = '\n' || c = '\x0d'

/-- Drop leading and trailing whitespace from a character list. -/
def trimChars (l : List Char) : List Char :=
  ((l.dropWhile wsChar).reverse.dropWhile wsChar).reverse

/-- Model of Rust `str::trim`. -/
def rustTrim (s : String) : String :=
  ⟨trimChars s.data⟩

/-- Fuel-driven replacement of the leftmost non-overlapping occurrences
of `pat` by `rep`; the fuel is the length of the scanned list, which
bounds the number of scanning steps. -/
def replaceFuel (pat rep : List Char) : Nat → List Char → List Char
  | 0, l => l
  | fuel + 1, l =>
    match l with
    | [] => []
    | c :: cs =>
      if pat.isPrefixOf (c :: cs) then
        rep ++ replaceFuel pat rep fuel ((c :: cs).drop pat.length)
      else c :: replaceFuel pat rep fuel cs

/-- Model of Rust `str::replace` (every pattern used by the program is
non-empty). -/
def rustReplace (s pat rep : String) : String :=
  ⟨replaceFuel pat.data rep.data s.data.length s.data⟩

/-- Drop one trailing carriage return, used by `rustLines` on the text
preceding a line feed. -/
def stripCR (l : List Char) : List Char :=
  match l.getLast? with
  | some c => if c = '\x0d' then l.dropLast else l
  | none => l

/-- Accumulator loop behind `rustLines`; `acc` holds the current line
reversed. -/
def rustLinesAux : List Char → List Char → List (List Char)
  | [], acc => if acc.isEmpty then [] else [acc.reverse]
  | c :: rest, acc =>
    if c = '\n' then stripCR acc.reverse :: rustLinesAux rest []
    else rustLinesAux rest (c :: acc)

/-- Model of Rust `str::lines`. -/
def rustLines (s : String) : List String :=
  (rustLinesAux s.data []).map (fun l => ⟨l⟩)

/-- Model of joining a vector of lines with a line feed, Rust
`slice::join("\n")`. -/
def joinLines : List String → String
  | [] => ""
  | [l] => l
  | l :: rest => l ++ "\n" ++ joinLines rest

/-- Substring test over character lists, model of Rust
`str::contains` for a literal pattern. -/
def containsSub (pat : List Char) : List Char → Bool
  | [] => pat.isPrefixOf []
  | c :: cs => pat.isPrefixOf (c :: cs) || containsSub pat cs

/-- Model of Rust `str::contains` for a literal pattern. -/
def containsStr (s pat : String) : Bool :=
  containsSub pat.data s.data

/-- Model of Rust `str::starts_with`. -/
def strStarts (s pat : String) : Bool :=
  pat.data.isPrefixOf s.data

/-- A script embedded in a maskfile command: its declared executor tag
and its raw source (mask_parser::maskfile::Script). -/
structure Script where
  executor : String
  source : String
deriving DecidableEq

/-- A maskfile command: a name, an optional script and ordered
subcommands (mask_parser::maskfile::Command, the fields the walk
reads). -/
inductive Cmd where
  | mk (name : String) (script : Option Script) (subcommands : List Cmd)

/-- The closed set of language handlers. -/
inductive Handler where
  | catchall
  | shellcheck
  | ruff
  | rubocop
deriving DecidableEq

/-- Handler dispatch on the executor tag, the `match script.executor.as_str()`
in `process_command`. -/
def dispatch (executor : String) : Handler :=
  if executor = "sh" || executor = "bash" || executor = "zsh" then .shellcheck
  else if executor = "py" || executor = "python" then .ruff
  else if executor = "rb" || executor = "ruby" then .rubocop
  else .catchall

/-- The file extension of each handler; the trait default is the empty
string and only Shellcheck, Ruff and Rubocop override it. -/
def fileExtension : Handler → String
  | .catchall => ""
  | .shellcheck => ".sh"
  | .ruff => ".py"
  | .rubocop => ".rb"

/-- The Display implementation of each handler, used in the
missing-executable error message. -/
def display : Handler → String
  | .catchall => "catchall"
  | .shellcheck => "shellcheck"
  | .ruff => "ruff"
  | .rubocop => "rubocop"

/-- The content transform of each handler: the trait default returns the
source unchanged; Shellcheck prepends its interpreter marker line. -/
def contentOf : Handler → Script → String
  | .shellcheck, s => "#!/bin/usr/env " ++ s.executor ++ "\n" ++ s.source
  | .catchall, s => s.source
  | .ruff, s => s.source
  | .rubocop, s => s.source

/-- The argv a handler spawns on the materialized file path; Catchall
spawns nothing. -/
def spawnArgs : Handler → String → Option (List String)
  | .catchall, _ => none
  | .shellcheck, p => some ["shellcheck", p]
  | .ruff, p => some ["ruff", "check", "--output-format=full", "--no-cache", p]
  | .rubocop, p => some ["rubocop", "--format=clang", "--display-style-guide", p]

/-- Shellcheck stdout normalization: trim, then remove every occurrence
of the file path followed by one space. -/
def shellcheckNormalize (path out : String) : String :=
  rustReplace (rustTrim out) (path ++ " ") ""

/-- The line loop of `Ruff::execute`: skip lines equal to
"All checks passed!", stop at the first line starting with "Found ",
and rewrite the path prefix of every retained line. -/
def ruffFilter (path : String) : List String → List String
  | [] => []
  | l :: rest =>
    if l = "All checks passed!" then ruffFilter path rest
    else if strStarts l "Found " then []
    else rustReplace l (path ++ ":") "line " :: ruffFilter path rest

/-- Ruff stdout normalization as implemented: trim the captured stdout,
run the line loop, join with line feeds and trim again. -/
def ruffNormalize (path out : String) : String :=
  rustTrim (joinLines (ruffFilter path (rustLines (rustTrim out))))

/-- Rubocop stdout normalization: drop lines containing
"1 file inspected", join, trim, then rewrite the path prefix. -/
def rubocopNormalize (path out : String) : String :=
  rustReplace
    (rustTrim (joinLines
      ((rustLines out).filter (fun l => !(containsStr l "1 file inspected")))))
    (path ++ ":") "line "

/-- Outcome of spawning a subprocess: captured stdout, a not-found
spawn failure, or any other failure. -/
inductive Spawn where
  | ok (stdout : String)
  | notFound
  | failure
deriving DecidableEq

/-- The execution environment: an oracle from an argv to the spawn
outcome. -/
abbrev Env := List String → Spawn

/-- Errors that abort the walk. -/
inductive WalkErr where
  | collision (fileName : String)
  | spawnNotFound (msg : String)
  | execFailure
deriving DecidableEq

/-- A handler's `execute` on the materialized file path, composed with
the error rewriting of `process_command`: Catchall returns its fixed
string without consulting the environment; the others spawn their argv,
normalize the captured stdout on success, turn a not-found spawn
failure into the descriptive message, and wrap any other failure
generically. -/
def runExec (env : Env) (h : Handler) (path : String) : Except WalkErr String :=
  match spawnArgs h path with
  | none => .ok "no linter found for target"
  | some args =>
    match env args with
    | .ok out =>
      .ok (match h with
        | .shellcheck => shellcheckNormalize path out
        | .ruff => ruffNormalize path out
        | .rubocop => rubocopNormalize path out
        | .catchall => "")
    | .notFound =>
      .error (.spawnNotFound ("executable for " ++ display h ++ " not found in $PATH"))
    | .failure => .error .execFailure

/-- The observable state of a run: files created in the output
directory (name and content, in creation order) and report entries
printed (qualified-name header and finding text, in print order). -/
structure St where
  files : List (String × String)
  output : List (String × String)
deriving DecidableEq

/-- The qualified name of a node: parent qualifier, one space, own
name when a parent qualifier is present, else the bare name. -/
def fullName : Option String → String → String
  | some p, n => p ++ " " ++ n
  | none, n => n

/-- The parent qualifier passed to subcommands: the current qualified
name when a parent qualifier was present, else the bare name. -/
def nextParent (parent : Option String) (full bare : String) : String :=
  if parent.isSome then full else bare

/-- The materialized file name of a qualified name under a handler:
spaces become underscores, then the handler extension is appended. -/
def fileNameOf (h : Handler) (full : String) : String :=
  rustReplace full " " "_" ++ fileExtension h

/-- Whether a file of the given name was already created. -/
def hasFile (files : List (String × String)) (name : String) : Bool :=
  files.any (fun f => f.1 = name)

/-- Path of a file inside the output directory, `out_dir.join(file_name)`. -/
def joinPath (outDir fname : String) : String :=
  if outDir = "" then fname else outDir ++ "/" ++ fname

/-- The body of `process_command` for the current node: nothing for a
node without a script; otherwise dispatch the handler, create the file
with exclusive-create semantics (error on an existing name), write the
transformed content, and outside dump mode run the handler and append a
report entry when the finding text is non-empty. -/
def stepCmd (env : Env) (outDir : String) (isDump : Bool) (full : String) :
    Option Script → St → St × Option WalkErr
  | none, st => (st, none)
  | some s, st =>
    let h := dispatch s.executor
    let fname := fileNameOf h full
    if hasFile st.files fname then (st, some (.collision fname))
    else
      let st1 : St := ⟨st.files ++ [(fname, contentOf h s)], st.output⟩
      if isDump then (st1, none)
      else
        match runExec env h (joinPath outDir fname) with
        | .error e => (st1, some e)
        | .ok findings =>
          if findings = "" then (st1, none)
          else (⟨st1.files, st1.output ++ [(full, findings)]⟩, none)

mutual
/-- Model of `process_command`: compute the qualified name; perform the
current node's effects via `stepCmd`; then recurse into the subcommands
with the new parent qualifier, stopping at the first error. -/
def processCommand (env : Env) (outDir : String) (isDump : Bool)
    (parent : Option String) : Cmd → St → St × Option WalkErr
  | .mk name script subs, st =>
    let full := fullName parent name
    match stepCmd env outDir isDump full script st with
    | (st1, some e) => (st1, some e)
    | (st1, none) =>
      processList env outDir isDump (some (nextParent parent full name)) subs st1

/-- Model of the subcommand loop (and of the top-level loop over the
maskfile commands): process each command in order, stopping at the
first error. -/
def processList (env : Env) (outDir : String) (isDump : Bool)
    (parent : Option String) : List Cmd → St → St × Option WalkErr
  | [], st => (st, none)
  | c :: cs, st =>
    match processCommand env outDir isDump parent c st with
    | (st1, none) => processList env outDir isDump parent cs st1
    | (st1, some e) => (st1, some e)
end

mutual
/-- The qualified names the walk computes, in visiting (preorder)
order, read off the name computation of `process_command`. -/
def walkNames (parent : Option String) : Cmd → List String
  | .mk n _ subs =>
    fullName parent n ::
      walkNamesList (some (nextParent parent (fullName parent n) n)) subs

/-- Preorder qualified names of a command list. -/
def walkNamesList (parent : Option String) : List Cmd → List String
  | [] => []
  | c :: cs => walkNames parent c ++ walkNamesList parent cs
end

/-- Space-joined name chain, the specification's reading of a
qualified name. -/
def spaceJoin : List String → String
  | [] => ""
  | [n] => n
  | n :: rest => n ++ " " ++ spaceJoin rest

mutual
/-- The ancestor-name chain of every node in preorder: the chain of a
node is the accumulated prefix of ancestor names followed by its own
name. -/
def chains (pre : List String) : Cmd → List (List String)
  | .mk n _ subs => (pre ++ [n]) :: chainsList (pre ++ [n]) subs

/-- Preorder ancestor-name chains of a command list. -/
def chainsList (pre : List String) : List Cmd → List (List String)
  | [] => []
  | c :: cs => chains pre c ++ chainsList pre cs
end

/-- The file a node's step creates: none for a node without a script,
else the materialized file of its script. -/
def nodeFiles (full : String) : Option Script → List (String × String)
  | none => []
  | some s => [(fileNameOf (dispatch s.executor) full,
                contentOf (dispatch s.executor) s)]

/-- The report entry a node's successful step prints: nothing without a
script, nothing in dump mode, nothing for an empty finding text, else
the qualified-name header with the finding text. -/
def nodeOut (env : Env) (outDir : String) (isDump : Bool) (full : String) :
    Option Script → List (String × String)
  | none => []
  | some s =>
    if isDump then []
    else
      match runExec env (dispatch s.executor)
          (joinPath outDir (fileNameOf (dispatch s.executor) full)) with
      | .error _ => []
      | .ok findings => if findings = "" then [] else [(full, findings)]

mutual
/-- The files the walk creates below a node when it succeeds: one file
per script-bearing node, in preorder, named by the qualified name with
spaces replaced by underscores plus the handler extension, holding the
transformed content. -/
def expFiles (parent : Option String) : Cmd → List (String × String)
  | .mk n script subs =>
    nodeFiles (fullName parent n) script ++
      expFilesList (some (nextParent parent (fullName parent n) n)) subs

/-- Expected created files of a command list. -/
def expFilesList (parent : Option String) : List Cmd → List (String × String)
  | [] => []
  | c :: cs => expFiles parent c ++ expFilesList parent cs
end

mutual
/-- The report entries the walk prints below a node when it succeeds:
nothing in dump mode; otherwise one entry per script-bearing node whose
finding text is non-empty, in preorder. -/
def expOut (env : Env) (outDir : String) (isDump : Bool)
    (parent : Option String) : Cmd → List (String × String)
  | .mk n script subs =>
    nodeOut env outDir isDump (fullName parent n) script ++
      expOutList env outDir isDump (some (nextParent parent (fullName parent n) n)) subs

/-- Expected report entries of a command list. -/
def expOutList (env : Env) (outDir : String) (isDump : Bool)
    (parent : Option String) : List Cmd → List (String × String)
  | [] => []
  | c :: cs =>
    expOut env outDir isDump parent c ++ expOutList env outDir isDump parent cs
end

/-- Ruff normalization exactly as the specification words it: split
the captured stdout into lines (with no initial trim), retain the lines
before the first one starting with "Found " that are not exactly
"All checks passed!", rewrite the path prefix in each, join and trim. -/
def ruffSpecNormalize (path out : String) : String :=
  rustTrim (joinLines
    ((((rustLines out).takeWhile (fun l => !(strStarts l "Found "))).filter
        (fun l => l != "All checks passed!")).map
      (fun l => rustReplace l (path ++ ":") "line ")))

/-- Ruff normalization as the specification words it, amended with the
initial trim of the captured stdout that the implementation performs
before splitting into lines. -/
def ruffSpecTrimmed (path out : String) : String :=
  rustTrim (joinLines
    ((((rustLines (rustTrim out)).takeWhile
          (fun l => !(strStarts l "Found "))).filter
        (fun l => l != "All checks passed!")).map
      (fun l => rustReplace l (path ++ ":") "line ")))

/-- Rubocop normalization as the specification words it: split into
lines, drop every line containing "1 file inspected", join, trim, then
replace the path prefix in the joined text. -/
def rubocopSpecNormalize (path out : String) : String :=
  let kept := (rustLines out).filter (fun l => !(containsStr l "1 file inspected"))
  let joined := rustTrim (joinLines kept)
  rustReplace joined (path ++ ":") "line "

/-- Shellcheck normalization as the specification words it: trim the
captured stdout, then remove every occurrence of the file path followed
by a single space. -/
def shellcheckSpecNormalize (path out : String) : String :=
  rustReplace (rustTrim out) (path ++ " ") ""

theorem strAppend_assoc (a b c : String) : a ++ b ++ c = a ++ (b ++ c) := by
  cases a with
  | mk da =>
    cases b with
    | mk db =>
      cases c with
      | mk dc => exact congrArg String.mk (List.append_assoc da db dc)

theorem spaceJoin_cons_cons (a b : String) (l : List String) :
    spaceJoin (a :: b :: l) = a ++ " " ++ spaceJoin (b :: l) := rfl

theorem spaceJoin_append (pre : List String) (n : String) (h : pre ≠ []) :
    spaceJoin (pre ++ [n]) = spaceJoin pre ++ " " ++ n := by
  induction pre with
  | nil => exact absurd rfl h
  | cons a rest ih =>
    cases rest with
    | nil => rfl
    | cons b rest2 =>
      have hr : (b :: rest2) ++ [n] = b :: (rest2 ++ [n]) := rfl
      calc spaceJoin ((a :: b :: rest2) ++ [n])
          = a ++ " " ++ spaceJoin ((b :: rest2) ++ [n]) := by
            rw [List.cons_append, hr, spaceJoin_cons_cons]
        _ = a ++ " " ++ (spaceJoin (b :: rest2) ++ " " ++ n) := by
            rw [ih (by simp)]
        _ = spaceJoin (a :: b :: rest2) ++ " " ++ n := by
            rw [spaceJoin_cons_cons]
            simp only [strAppend_assoc]

mutual
theorem walkNames_chains (c : Cmd) (pre : List String) (hpre : pre ≠ []) :
    walkNames (some (spaceJoin pre)) c = (chains pre c).map spaceJoin := by
  match c with
  | .mk n s subs =>
    have hfull : fullName (some (spaceJoin pre)) n = spaceJoin (pre ++ [n]) := by
      rw [spaceJoin_append pre n hpre]; rfl
    simp only [walkNames, chains, List.map_cons, nextParent, Option.isSome_some,
      if_true, hfull]
    exact congrArg (List.cons (spaceJoin (pre ++ [n])))
      (walkNamesList_chains subs (pre ++ [n]) (by simp))

theorem walkNamesList_chains (cs : List Cmd) (pre : List String) (hpre : pre ≠ []) :
    walkNamesList (some (spaceJoin pre)) cs = (chainsList pre cs).map spaceJoin := by
  match cs with
  | [] => rfl
  | c :: rest =>
    simp only [walkNamesList, chainsList, List.map_append]
    rw [walkNames_chains c pre hpre, walkNamesList_chains rest pre hpre]
end

theorem stepCmd_none (env : Env) (o : String) (d : Bool) (full : String)
    (st : St) : stepCmd env o d full none st = (st, none) := rfl

theorem stepCmd_collision (env : Env) (o : String) (d : Bool) (full : String)
    (s : Script) (st : St)
    (hf : hasFile st.files (fileNameOf (dispatch s.executor) full) = true) :
    stepCmd env o d full (some s) st =
      (st, some (.collision (fileNameOf (dispatch s.executor) full))) := by
  simp only [stepCmd, hf, if_true]

theorem stepCmd_dump (env : Env) (o : String) (full : String) (s : Script)
    (st : St)
    (hf : hasFile st.files (fileNameOf (dispatch s.executor) full) = false) :
    stepCmd env o true full (some s) st =
      (⟨st.files ++ [(fileNameOf (dispatch s.executor) full,
          contentOf (dispatch s.executor) s)], st.output⟩, none) := by
  simp only [stepCmd, hf, Bool.false_eq_true, if_false, if_true]

theorem stepCmd_report (env : Env) (o : String) (full : String) (s : Script)
    (st : St) (f : String)
    (hf : hasFile st.files (fileNameOf (dispatch s.executor) full) = false)
    (hr : runExec env (dispatch s.executor)
        (joinPath o (fileNameOf (dispatch s.executor) full)) = .ok f) :
    stepCmd env o false full (some s) st =
      (⟨st.files ++ [(fileNameOf (dispatch s.executor) full,
          contentOf (dispatch s.executor) s)],
        if f = "" then st.output else st.output ++ [(full, f)]⟩, none) := by
  simp only [stepCmd, hf, Bool.false_eq_true, if_false, hr]
  by_cases hf2 : f = "" <;> simp [hf2]

theorem stepCmd_err (env : Env) (o : String) (full : String) (s : Script)
    (st : St) (e : WalkErr)
    (hf : hasFile st.files (fileNameOf (dispatch s.executor) full) = false)
    (hr : runExec env (dispatch s.executor)
        (joinPath o (fileNameOf (dispatch s.executor) full)) = .error e) :
    stepCmd env o false full (some s) st =
      (⟨st.files ++ [(fileNameOf (dispatch s.executor) full,
          contentOf (dispatch s.executor) s)], st.output⟩, some e) := by
  simp only [stepCmd, hf, Bool.false_eq_true, if_false, hr]

theorem stepCmd_ok (env : Env) (o : String) (d : Bool) (full : String)
    (script : Option Script) (st : St)
    (h : (stepCmd env o d full script st).2 = none) :
    (stepCmd env o d full script st).1 =
      ⟨st.files ++ nodeFiles full script,
       st.output ++ nodeOut env o d full script⟩ := by
  cases script with
  | none => simp [stepCmd_none, nodeFiles, nodeOut]
  | some s =>
    by_cases hf : hasFile st.files (fileNameOf (dispatch s.executor) full)
    · rw [stepCmd_collision env o d full s st hf] at h
      simp at h
    · cases d with
      | true =>
        rw [stepCmd_dump env o full s st (by simp [hf])]
        simp [nodeFiles, nodeOut]
      | false =>
        cases hr : runExec env (dispatch s.executor)
            (joinPath o (fileNameOf (dispatch s.executor) full)) with
        | error e =>
          rw [stepCmd_err env o full s st e (by simp [hf]) hr] at h
          simp at h
        | ok f =>
          rw [stepCmd_report env o full s st f (by simp [hf]) hr]
          simp only [nodeFiles, nodeOut, Bool.false_eq_true, if_false, hr]
          by_cases hf2 : f = "" <;> simp [hf2]

theorem walkNames_root (c : Cmd) :
    walkNames none c = (chains [] c).map spaceJoin := by
  match c with
  | .mk n s subs =>
    simp only [walkNames, chains, List.map_cons, nextParent, Option.isSome_none,
      if_false, fullName, List.nil_append]
    have h1 : spaceJoin [n] = n := rfl
    have := walkNamesList_chains subs [n] (by simp)
    rw [h1] at this
    exact congrArg (List.cons n) this

theorem processList_nil (env : Env) (o : String) (d : Bool)
    (parent : Option String) (st : St) :
    processList env o d parent [] st = (st, none) := by
  simp [processList]

theorem processCommand_step_some (env : Env) (o : String) (d : Bool)
    (parent : Option String) (n : String) (script : Option Script)
    (subs : List Cmd) (st st1 : St) (e : WalkErr)
    (hstep : stepCmd env o d (fullName parent n) script st = (st1, some e)) :
    processCommand env o d parent (.mk n script subs) st = (st1, some e) := by
  simp only [processCommand, hstep]

theorem processCommand_step_none (env : Env) (o : String) (d : Bool)
    (parent : Option String) (n : String) (script : Option Script)
    (subs : List Cmd) (st st1 : St)
    (hstep : stepCmd env o d (fullName parent n) script st = (st1, none)) :
    processCommand env o d parent (.mk n script subs) st =
      processList env o d (some (nextParent parent (fullName parent n) n))
        subs st1 := by
  simp only [processCommand, hstep]

theorem processList_cons_some (env : Env) (o : String) (d : Bool)
    (parent : Option String) (c : Cmd) (cs : List Cmd) (st st1 : St)
    (e : WalkErr)
    (hc : processCommand env o d parent c st = (st1, some e)) :
    processList env o d parent (c :: cs) st = (st1, some e) := by
  simp only [processList, hc]

theorem processList_cons_none (env : Env) (o : String) (d : Bool)
    (parent : Option String) (c : Cmd) (cs : List Cmd) (st st1 : St)
    (hc : processCommand env o d parent c st = (st1, none)) :
    processList env o d parent (c :: cs) st =
      processList env o d parent cs st1 := by
  simp only [processList, hc]

mutual
theorem processCommand_frame (env : Env) (o : String) (d : Bool)
    (parent : Option String) (c : Cmd) (st : St)
    (h : (processCommand env o d parent c st).2 = none) :
    (processCommand env o d parent c st).1 =
      ⟨st.files ++ expFiles parent c,
       st.output ++ expOut env o d parent c⟩ := by
  match c with
  | .mk n script subs =>
    cases hstep : stepCmd env o d (fullName parent n) script st with
    | mk st1 eo =>
      cases eo with
      | some e =>
        rw [processCommand_step_some env o d parent n script subs st st1 e hstep] at h
        simp at h
      | none =>
        have hst1 : st1 = ⟨st.files ++ nodeFiles (fullName parent n) script,
            st.output ++ nodeOut env o d (fullName parent n) script⟩ := by
          have h2 := stepCmd_ok env o d (fullName parent n) script st
            (by rw [hstep])
          rw [hstep] at h2
          exact h2
        rw [processCommand_step_none env o d parent n script subs st st1 hstep] at h ⊢
        rw [processList_frame env o d _ subs st1 h, hst1]
        simp [expFiles, expOut, List.append_assoc]

theorem processList_frame (env : Env) (o : String) (d : Bool)
    (parent : Option String) (cs : List Cmd) (st : St)
    (h : (processList env o d parent cs st).2 = none) :
    (processList env o d parent cs st).1 =
      ⟨st.files ++ expFilesList parent cs,
       st.output ++ expOutList env o d parent cs⟩ := by
  match cs with
  | [] => simp [processList_nil, expFilesList, expOutList]
  | c :: rest =>
    cases hc : processCommand env o d parent c st with
    | mk st1 eo =>
      cases eo with
      | some e =>
        rw [processList_cons_some env o d parent c rest st st1 e hc] at h
        simp at h
      | none =>
        have hst1 : st1 = ⟨st.files ++ expFiles parent c,
            st.output ++ expOut env o d parent c⟩ := by
          have h2 := processCommand_frame env o d parent c st (by rw [hc])
          rw [hc] at h2
          exact h2
        rw [processList_cons_none env o d parent c rest st st1 hc] at h ⊢
        rw [processList_frame env o d parent rest st1 h, hst1]
        simp [expFilesList, expOutList, List.append_assoc]
end

theorem stepCmd_env_dump (env env2 : Env) (o full : String)
    (script : Option Script) (st : St) :
    stepCmd env o true full script st = stepCmd env2 o true full script st := by
  cases script with
  | none => rfl
  | some s =>
    by_cases hf : hasFile st.files (fileNameOf (dispatch s.executor) full)
    · rw [stepCmd_collision env o true full s st hf,
        stepCmd_collision env2 o true full s st hf]
    · rw [stepCmd_dump env o full s st (by simp [hf]),
        stepCmd_dump env2 o full s st (by simp [hf])]

theorem stepCmd_dump_output (env : Env) (o full : String)
    (script : Option Script) (st : St) :
    (stepCmd env o true full script st).1.output = st.output := by
  cases script with
  | none => rfl
  | some s =>
    by_cases hf : hasFile st.files (fileNameOf (dispatch s.executor) full)
    · rw [stepCmd_collision env o true full s st hf]
    · rw [stepCmd_dump env o full s st (by simp [hf])]

mutual
theorem processCommand_dump_env (env env2 : Env) (o : String)
    (parent : Option String) (c : Cmd) (st : St) :
    processCommand env o true parent c st =
      processCommand env2 o true parent c st := by
  match c with
  | .mk n script subs =>
    have hs := stepCmd_env_dump env env2 o (fullName parent n) script st
    cases hstep : stepCmd env2 o true (fullName parent n) script st with
    | mk st1 eo =>
      cases eo with
      | some e =>
        rw [processCommand_step_some env o true parent n script subs st st1 e
            (hs.trans hstep),
          processCommand_step_some env2 o true parent n script subs st st1 e hstep]
      | none =>
        rw [processCommand_step_none env o true parent n script subs st st1
            (hs.trans hstep),
          processCommand_step_none env2 o true parent n script subs st st1 hstep]
        exact processList_dump_env env env2 o _ subs st1

theorem processList_dump_env (env env2 : Env) (o : String)
    (parent : Option String) (cs : List Cmd) (st : St) :
    processList env o true parent cs st =
      processList env2 o true parent cs st := by
  match cs with
  | [] => rfl
  | c :: rest =>
    have hc2 := processCommand_dump_env env env2 o parent c st
    cases hc : processCommand env2 o true parent c st with
    | mk st1 eo =>
      cases eo with
      | some e =>
        rw [processList_cons_some env o true parent c rest st st1 e
            (hc2.trans hc),
          processList_cons_some env2 o true parent c rest st st1 e hc]
      | none =>
        rw [processList_cons_none env o true parent c rest st st1 (hc2.trans hc),
          processList_cons_none env2 o true parent c rest st st1 hc]
        exact processList_dump_env env env2 o parent rest st1
end

mutual
theorem processCommand_dump_output (env : Env) (o : String)
    (parent : Option String) (c : Cmd) (st : St) :
    (processCommand env o true parent c st).1.output = st.output := by
  match c with
  | .mk n script subs =>
    cases hstep : stepCmd env o true (fullName parent n) script st with
    | mk st1 eo =>
      have hout : st1.output = st.output := by
        have h2 := stepCmd_dump_output env o (fullName parent n) script st
        rw [hstep] at h2
        exact h2
      cases eo with
      | some e =>
        rw [processCommand_step_some env o true parent n script subs st st1 e hstep]
        exact hout
      | none =>
        rw [processCommand_step_none env o true parent n script subs st st1 hstep]
        rw [processList_dump_output env o _ subs st1]
        exact hout

theorem processList_dump_output (env : Env) (o : String)
    (parent : Option String) (cs : List Cmd) (st : St) :
    (processList env o true parent cs st).1.output = st.output := by
  match cs with
  | [] => rfl
  | c :: rest =>
    cases hc : processCommand env o true parent c st with
    | mk st1 eo =>
      have hout : st1.output = st.output := by
        have h2 := processCommand_dump_output env o parent c st
        rw [hc] at h2
        exact h2
      cases eo with
      | some e =>
        rw [processList_cons_some env o true parent c rest st st1 e hc]
        exact hout
      | none =>
        rw [processList_cons_none env o true parent c rest st st1 hc]
        rw [processList_dump_output env o parent rest st1]
        exact hout
end

theorem strAppend_empty (s : String) : s ++ "" = s := by
  cases s with
  | mk d => exact congrArg String.mk (List.append_nil d)

theorem fileNameOf_catchall (full : String) :
    fileNameOf .catchall full = rustReplace full " " "_" :=
  strAppend_empty _

/-- C1: the walker computes a node's qualified name as the parent
qualifier, a space, and the node's own name when a parent qualifier is
present, and as the bare name otherwise, and passes the current
qualified name down (a root-level node passes its bare name, which
equals its qualified name); consequently the preorder list of qualified
names of any tree equals the preorder list of space-joined
ancestor-name chains. -/
theorem claim_C1 :
    (∀ c : Cmd, walkNames none c = (chains [] c).map spaceJoin) ∧
    (∀ n : String, nextParent none (fullName none n) n = fullName none n) :=
  ⟨walkNames_root, fun _ => rfl⟩

/-- C2: handler dispatch is total: sh, bash and zsh select Shellcheck;
py and python select Ruff; rb and ruby select Rubocop; every other tag
selects Catchall, whose file extension is empty and whose execute
returns the fixed string without consulting the environment; outside
dump mode an unrecognized tag therefore writes a file with empty
extension and reports the fixed text. -/
theorem claim_C2 :
    dispatch "sh" = .shellcheck ∧ dispatch "bash" = .shellcheck ∧
    dispatch "zsh" = .shellcheck ∧ dispatch "py" = .ruff ∧
    dispatch "python" = .ruff ∧ dispatch "rb" = .rubocop ∧
    dispatch "ruby" = .rubocop ∧
    (∀ t : String,
      t ∉ (["sh", "bash", "zsh", "py", "python", "rb", "ruby"] : List String) →
      dispatch t = .catchall) ∧
    fileExtension .catchall = "" ∧
    (∀ full : String, fileNameOf .catchall full = rustReplace full " " "_") ∧
    (∀ (env : Env) (p : String),
      runExec env .catchall p = .ok "no linter found for target") ∧
    (∀ (env : Env) (o : String) (parent : Option String) (n : String)
        (s : Script) (subs : List Cmd) (st : St),
      dispatch s.executor = .catchall →
      hasFile st.files (rustReplace (fullName parent n) " " "_") = false →
      processCommand env o false parent (.mk n (some s) subs) st =
        processList env o false
          (some (nextParent parent (fullName parent n) n)) subs
          ⟨st.files ++ [(rustReplace (fullName parent n) " " "_", s.source)],
           st.output ++ [(fullName parent n, "no linter found for target")]⟩) := by
  refine ⟨rfl, rfl, rfl, rfl, rfl, rfl, rfl, ?_, rfl, fileNameOf_catchall, fun _ _ => rfl, ?_⟩
  · intro t h
    simp only [List.mem_cons, List.not_mem_nil, or_false, not_or] at h
    obtain ⟨h1, h2, h3, h4, h5, h6, h7⟩ := h
    simp [dispatch, h1, h2, h3, h4, h5, h6, h7]
  · intro env o parent n s subs st hdisp hf
    have hfn : fileNameOf (dispatch s.executor) (fullName parent n) =
        rustReplace (fullName parent n) " " "_" := by
      rw [hdisp, fileNameOf_catchall]
    have hf2 : hasFile st.files
        (fileNameOf (dispatch s.executor) (fullName parent n)) = false := by
      rw [hfn]; exact hf
    have hrun : runExec env (dispatch s.executor)
        (joinPath o (fileNameOf (dispatch s.executor) (fullName parent n))) =
        .ok "no linter found for target" := by
      rw [hdisp]; rfl
    have hstep := stepCmd_report env o (fullName parent n) s st
      "no linter found for target" hf2 hrun
    rw [if_neg (by decide)] at hstep
    rw [hfn] at hstep
    rw [hdisp] at hstep
    have hcontent : contentOf Handler.catchall s = s.source := rfl
    rw [hcontent] at hstep
    exact processCommand_step_none env o false parent n (some s) subs st _ hstep

/-- Witness for C2 at the unrecognized tag "lua". -/
theorem claim_C2_witness :
    dispatch "lua" = .catchall ∧
    processCommand (fun _ => Spawn.ok "") "" false none
      (.mk "x" (some ⟨"lua", "body"⟩) []) ⟨[], []⟩ =
      (⟨[("x", "body")], [("x", "no linter found for target")]⟩, none) := by
  constructor
  · exact claim_C2.2.2.2.2.2.2.2.1 "lua" (by decide)
  · have h := claim_C2.2.2.2.2.2.2.2.2.2.2.2 (fun _ => Spawn.ok "") "" none "x"
      ⟨"lua", "body"⟩ [] ⟨[], []⟩ (by decide) (by decide)
    rw [h]
    decide

theorem ruffFilter_eq (path : String) (ls : List String) :
    ruffFilter path ls =
      (((ls.takeWhile fun l => !(strStarts l "Found ")).filter
          (fun l => l != "All checks passed!")).map
        (fun l => rustReplace l (path ++ ":") "line ")) := by
  induction ls with
  | nil => rfl
  | cons l rest ih =>
    by_cases h1 : l = "All checks passed!"
    · subst h1
      have h2 : strStarts "All checks passed!" "Found " = false := by decide
      simp [ruffFilter, List.takeWhile, h2, ih]
    · by_cases h2 : strStarts l "Found "
      · simp [ruffFilter, h1, h2, List.takeWhile]
      · simp [ruffFilter, h1, h2, List.takeWhile, ih]

/-- C3 counterexample: the claim's pipeline (split the captured stdout
into lines with no preliminary trim) disagrees with the implementation
(which trims the captured stdout first) on a stdout whose single line
carries leading spaces. -/
theorem claim_C3_counterexample :
    ruffNormalize "f.py" "  All checks passed!" = "" ∧
    ruffSpecNormalize "f.py" "  All checks passed!" = "All checks passed!" ∧
    ruffNormalize "f.py" "  All checks passed!" ≠
      ruffSpecNormalize "f.py" "  All checks passed!" := by
  refine ⟨by decide, by decide, by decide⟩

/-- C3 amended: Ruff normalization first trims the captured stdout,
then splits it into lines, skips lines that are exactly
"All checks passed!", stops at the first line starting with "Found ",
replaces the path-colon prefix with "line " in every retained line,
joins with newline and trims; the given example normalizes as
claimed. -/
theorem claim_C3 :
    (∀ path out : String, ruffNormalize path out = ruffSpecTrimmed path out) ∧
    ruffNormalize "f.py" "f.py:3:1: E501 msg\nFound 1 error.\n" =
      "line 3:1: E501 msg" := by
  constructor
  · intro path out
    unfold ruffNormalize ruffSpecTrimmed
    rw [ruffFilter_eq]
  · decide

/-- C4: Rubocop normalization splits stdout into lines, drops every
line containing "1 file inspected", joins with newline, trims, then
replaces the path-colon prefix with "line "; the given example
normalizes to only the rewritten offense line. -/
theorem claim_C4 :
    (∀ path out : String,
      rubocopNormalize path out = rubocopSpecNormalize path out) ∧
    rubocopNormalize "f.rb"
        "f.rb:5:3: C: Description\n\n1 file inspected, no offenses detected\n" =
      "line 5:3: C: Description" := by
  constructor
  · intro path out
    rfl
  · decide
/-- C5: materialization is exclusive-create: when a file of the
computed name already exists the walk fails with a collision error for
that name and the state is returned unchanged (nothing overwritten or
appended, no recursion into subcommands); when the name is fresh the
file is created with the computed name and the handler-transformed
content, whatever the mode and execution outcome. -/
theorem claim_C5 :
    (∀ (env : Env) (o : String) (d : Bool) (parent : Option String)
        (n : String) (s : Script) (subs : List Cmd) (st : St),
      hasFile st.files
          (fileNameOf (dispatch s.executor) (fullName parent n)) = true →
      processCommand env o d parent (.mk n (some s) subs) st =
        (st, some (WalkErr.collision
          (fileNameOf (dispatch s.executor) (fullName parent n))))) ∧
    (∀ (env : Env) (o : String) (d : Bool) (full : String) (s : Script)
        (st : St),
      hasFile st.files (fileNameOf (dispatch s.executor) full) = false →
      (stepCmd env o d full (some s) st).1.files =
        st.files ++ [(fileNameOf (dispatch s.executor) full,
          contentOf (dispatch s.executor) s)]) := by
  constructor
  · intro env o d parent n s subs st hf
    exact processCommand_step_some env o d parent n (some s) subs st st _
      (stepCmd_collision env o d (fullName parent n) s st hf)
  · intro env o d full s st hf
    cases d with
    | true => rw [stepCmd_dump env o full s st hf]
    | false =>
      cases hr : runExec env (dispatch s.executor)
          (joinPath o (fileNameOf (dispatch s.executor) full)) with
      | error e => rw [stepCmd_err env o full s st e hf hr]
      | ok f => rw [stepCmd_report env o full s st f hf hr]

/-- Witness for C5: a pre-existing file of the computed name makes the
walk fail with a collision error and leaves the old content in place;
on a fresh name the file is created. -/
theorem claim_C5_witness :
    processCommand (fun _ => Spawn.ok "") "" true none
        (.mk "a" (some ⟨"lua", "new"⟩) []) ⟨[("a", "old")], []⟩ =
      (⟨[("a", "old")], []⟩, some (WalkErr.collision "a")) ∧
    (stepCmd (fun _ => Spawn.ok "") "" true "a" (some ⟨"lua", "new"⟩)
        ⟨[], []⟩).1.files = [("a", "new")] := by
  constructor
  · have h := claim_C5.1 (fun _ => Spawn.ok "") "" true none "a" ⟨"lua", "new"⟩
      [] ⟨[("a", "old")], []⟩ (by decide)
    rw [h]
    decide
  · have h := claim_C5.2 (fun _ => Spawn.ok "") "" true "a" ⟨"lua", "new"⟩
      ⟨[], []⟩ (by decide)
    rw [h]
    decide

/-- C6: a subprocess spawn failing with not-found is rewritten into the
descriptive error naming the handler, every other spawn failure is
surfaced as the distinct generic error, and any node error stops the
walk with no further sibling processed. -/
theorem claim_C6 :
    (∀ (env : Env) (h : Handler) (path : String) (args : List String),
      spawnArgs h path = some args → env args = .notFound →
      runExec env h path = .error (.spawnNotFound
        ("executable for " ++ display h ++ " not found in $PATH"))) ∧
    (∀ (env : Env) (h : Handler) (path : String) (args : List String),
      spawnArgs h path = some args → env args = .failure →
      runExec env h path = .error .execFailure) ∧
    (∀ msg : String, WalkErr.spawnNotFound msg ≠ WalkErr.execFailure) ∧
    (∀ (env : Env) (o : String) (d : Bool) (parent : Option String)
        (c : Cmd) (cs : List Cmd) (st st1 : St) (e : WalkErr),
      processCommand env o d parent c st = (st1, some e) →
      processList env o d parent (c :: cs) st = (st1, some e)) := by
  refine ⟨?_, ?_, ?_, ?_⟩
  · intro env h path args hargs henv
    simp only [runExec, hargs, henv]
  · intro env h path args hargs henv
    simp only [runExec, hargs, henv]
  · intro msg h
    exact WalkErr.noConfusion h
  · intro env o d parent c cs st st1 e hc
    exact processList_cons_some env o d parent c cs st st1 e hc

/-- Witness for C6: with the shellcheck binary absent, processing a
shell node yields the descriptive error and the following sibling is
never processed. -/
theorem claim_C6_witness :
    runExec (fun _ => Spawn.notFound) .shellcheck "x.sh" =
      .error (.spawnNotFound "executable for shellcheck not found in $PATH") ∧
    processList (fun _ => Spawn.notFound) "" false none
        [.mk "a" (some ⟨"sh", "s1"⟩) [], .mk "b" (some ⟨"sh", "s2"⟩) []]
        ⟨[], []⟩ =
      (⟨[("a.sh", "#!/bin/usr/env sh\ns1")], []⟩,
       some (.spawnNotFound "executable for shellcheck not found in $PATH")) := by
  constructor
  · exact claim_C6.1 (fun _ => Spawn.notFound) .shellcheck "x.sh"
      ["shellcheck", "x.sh"] rfl rfl
  · have h := claim_C6.2.2.2 (fun _ => Spawn.notFound) "" false none
      (.mk "a" (some ⟨"sh", "s1"⟩) []) [.mk "b" (some ⟨"sh", "s2"⟩) []]
      ⟨[], []⟩ ⟨[("a.sh", "#!/bin/usr/env sh\ns1")], []⟩
      (.spawnNotFound "executable for shellcheck not found in $PATH")
      (by decide)
    exact h

/-- C7: in dump mode the walk consults no handler execution (its result
is independent of the subprocess environment) and prints nothing;
outside dump mode a script-bearing node whose handler returns a finding
string appends the qualified-name header with the finding text exactly
when the finding string is non-empty, and nothing otherwise. -/
theorem claim_C7 :
    (∀ (env env2 : Env) (o : String) (parent : Option String) (c : Cmd)
        (st : St),
      processCommand env o true parent c st =
        processCommand env2 o true parent c st) ∧
    (∀ (env : Env) (o : String) (parent : Option String) (c : Cmd) (st : St),
      (processCommand env o true parent c st).1.output = st.output) ∧
    (∀ (env : Env) (o : String) (parent : Option String) (n : String)
        (s : Script) (subs : List Cmd) (st : St) (f : String),
      hasFile st.files
          (fileNameOf (dispatch s.executor) (fullName parent n)) = false →
      runExec env (dispatch s.executor)
          (joinPath o (fileNameOf (dispatch s.executor) (fullName parent n))) =
        .ok f →
      processCommand env o false parent (.mk n (some s) subs) st =
        processList env o false
          (some (nextParent parent (fullName parent n) n)) subs
          ⟨st.files ++ [(fileNameOf (dispatch s.executor) (fullName parent n),
             contentOf (dispatch s.executor) s)],
           if f = "" then st.output else st.output ++ [(fullName parent n, f)]⟩) := by
  refine ⟨processCommand_dump_env, processCommand_dump_output, ?_⟩
  intro env o parent n s subs st f hf hr
  exact processCommand_step_none env o false parent n (some s) subs st _
    (stepCmd_report env o (fullName parent n) s st f hf hr)

/-- Witness for C7: a catchall node outside dump mode reports its fixed
non-empty finding text under its qualified-name header. -/
theorem claim_C7_witness :
    processCommand (fun _ => Spawn.ok "") "" false none
        (.mk "x" (some ⟨"lua", "b"⟩) []) ⟨[], []⟩ =
      (⟨[("x", "b")], [("x", "no linter found for target")]⟩, none) := by
  have h := claim_C7.2.2 (fun _ => Spawn.ok "") "" none "x" ⟨"lua", "b"⟩ []
    ⟨[], []⟩ "no linter found for target" (by decide) rfl
  rw [h]
  decide

/-- C8: the Shellcheck content transform prepends exactly the line
with the non-standard interpreter path and the executor tag before the
unchanged source, and its stdout normalization trims the captured
stdout and removes every occurrence of the file path followed by a
single space; illustrated on a concrete output. -/
theorem claim_C8 :
    (∀ s : Script, contentOf .shellcheck s =
      "#!/bin/usr/env " ++ s.executor ++ "\n" ++ s.source) ∧
    (∀ path out : String,
      shellcheckNormalize path out = shellcheckSpecNormalize path out) ∧
    shellcheckNormalize "d/x.sh" "  In d/x.sh line 2:\nnote  " =
      "In line 2:\nnote" := by
  refine ⟨fun s => rfl, fun path out => rfl, by decide⟩

/-- C9: whenever the walk of a tree succeeds, the files it created are
exactly one per script-bearing node, in depth-first preorder preserving
subcommand order, named and filled per the handler, and the report
entries are exactly those script-bearing nodes with non-empty findings
in the same order; a node without a script adds no file and no output
and its subcommands are still processed. -/
theorem claim_C9 :
    (∀ (env : Env) (o : String) (d : Bool) (parent : Option String)
        (c : Cmd) (st : St),
      (processCommand env o d parent c st).2 = none →
      (processCommand env o d parent c st).1 =
        ⟨st.files ++ expFiles parent c,
         st.output ++ expOut env o d parent c⟩) ∧
    (∀ (env : Env) (o : String) (d : Bool) (parent : Option String)
        (n : String) (subs : List Cmd) (st : St),
      processCommand env o d parent (.mk n none subs) st =
        processList env o d
          (some (nextParent parent (fullName parent n) n)) subs st) := by
  constructor
  · exact processCommand_frame
  · intro env o d parent n subs st
    exact processCommand_step_none env o d parent n none subs st st rfl

/-- Witness for C9 on a two-level tree whose root carries no script. -/
theorem claim_C9_witness :
    ((processCommand (fun _ => Spawn.ok "") "" false none
        (.mk "a" none [.mk "b" (some ⟨"sh", "x"⟩) []]) ⟨[], []⟩).2 = none) ∧
    (processCommand (fun _ => Spawn.ok "") "" false none
        (.mk "a" none [.mk "b" (some ⟨"sh", "x"⟩) []]) ⟨[], []⟩).1 =
      ⟨St.files ⟨[], []⟩ ++
         expFiles none (.mk "a" none [.mk "b" (some ⟨"sh", "x"⟩) []]),
       St.output ⟨[], []⟩ ++
         expOut (fun _ => Spawn.ok "") "" false none
           (.mk "a" none [.mk "b" (some ⟨"sh", "x"⟩) []])⟩ := by
  refine ⟨by decide, claim_C9.1 (fun _ => Spawn.ok "") "" false none
    (.mk "a" none [.mk "b" (some ⟨"sh", "x"⟩) []]) ⟨[], []⟩ (by decide)⟩

/-- C10 counterexample: in the tree the claim itself describes — a root
command named "a b" beside a root command "a" with a subcommand "b" —
the two script-bearing nodes have the same qualified name "a b", so the
described instance is not one of two nodes with distinct qualified
names and its collision does not happen with all qualified names
distinct. -/
theorem claim_C10_counterexample :
    walkNamesList none
        [Cmd.mk "a b" (some ⟨"lua", "x"⟩) [],
         Cmd.mk "a" none [Cmd.mk "b" (some ⟨"lua", "y"⟩) []]] =
      ["a b", "a", "a b"] ∧
    ¬ (walkNamesList none
        [Cmd.mk "a b" (some ⟨"lua", "x"⟩) [],
         Cmd.mk "a" none [Cmd.mk "b" (some ⟨"lua", "y"⟩) []]]).Nodup := by
  refine ⟨by decide, by decide⟩

/-- C10 amended: the name-to-file mapping is not injective: a root
command named "a_b" and a subcommand "b" of a root command "a", both
carrying scripts with the same handler, have distinct qualified names
yet resolve to the same file name, so the second materialization fails
with a collision error even though no two nodes share a qualified
name. -/
theorem claim_C10 : ∀ env : Env,
    walkNamesList none
        [Cmd.mk "a" none [Cmd.mk "b" (some ⟨"lua", "x"⟩) []],
         Cmd.mk "a_b" (some ⟨"lua", "y"⟩) []] = ["a", "a b", "a_b"] ∧
    (["a", "a b", "a_b"] : List String).Nodup ∧
    ("a b" : String) ≠ "a_b" ∧
    fileNameOf .catchall "a b" = fileNameOf .catchall "a_b" ∧
    processList env "" true none
        [Cmd.mk "a" none [Cmd.mk "b" (some ⟨"lua", "x"⟩) []],
         Cmd.mk "a_b" (some ⟨"lua", "y"⟩) []] ⟨[], []⟩ =
      (⟨[("a_b", "x")], []⟩, some (.collision "a_b")) := by
  intro env
  refine ⟨by decide, by decide, by decide, by decide, ?_⟩
  have h := processList_dump_env env (fun _ => Spawn.ok "") "" none
    [Cmd.mk "a" none [Cmd.mk "b" (some ⟨"lua", "x"⟩) []],
     Cmd.mk "a_b" (some ⟨"lua", "y"⟩) []] ⟨[], []⟩
  rw [h]
  decide
